import Mathlib

/-!
# Verification of the px-plus web-enhancement pipeline

Shallow embedding of the enhancement pipeline of the `px-plus` repository:
the domain data model (`TermInfo`, `EnhancedTerm`, the supported language
set), the result validator and fallback orchestrator
(`WebEnhancementService` / `AsyncWebEnhancementService`), the batch
splitter (`BatchEnhancementService`), the cache-aside layer
(`CachedEnhancementService` / `AsyncCachedEnhancementService`) and the
request validation boundary (`EnhanceRequest` pydantic model and
`EnhancementRequestDTO`).

Modelling conventions:
* Python `float` confidence scores are modelled as `ℚ`; every comparison
  appearing in the code is against 0.0, 0.5 or 1.0, where the rational
  model agrees with IEEE semantics for the values exercised here.
* Python `datetime` values are modelled as `Option Nat` (epoch instants);
  `datetime.utcnow()` is an explicit `now : Nat` parameter.
* Python dicts with string keys are modelled as insertion-ordered
  association lists (`List (String × String)`) whose update keeps the
  original position of an existing key, as CPython dicts do.
* JSON serialisation (`json.dumps`/`json.loads` of `to_dict` output) is
  modelled as the identity on the `TermData` record: the repository only
  round-trips plain strings, lists and numbers.
* Error messages: the Python code builds Korean interpolated strings; the
  embedding keeps short English tags (and a structured `ValidationError`)
  carrying exactly the data the Python messages interpolate.  No claim
  depends on message text.
* The md5-truncated language hash inside cache keys is modelled by the
  full sorted comma-joined language string (the value the Python code
  hashes); hash collisions are abstracted away.
* Python's `str.strip()` / `str.lower()` / `str.replace(" ", "_")` and
  `sorted` on strings are modelled by explicit structural recursion over
  the character list (`pyStrip`, `pyLower`, `pyReplaceSpace`,
  `sortStrings`), so that every definition evaluates inside the kernel;
  the whitespace set and case table agree with Python on the ASCII data
  this pipeline handles.
-/

deriving instance DecidableEq for Except

namespace PxPlus

/-- Python `str.strip()`: drop leading and trailing whitespace. -/
def pyStrip (s : String) : String :=
  String.mk (((s.data.dropWhile Char.isWhitespace).reverse.dropWhile Char.isWhitespace).reverse)

/-- Python `str.lower()` (ASCII case folding). -/
def pyLower (s : String) : String := String.mk (s.data.map Char.toLower)

/-- Python `str.replace(" ", "_")` for the single-character pattern used
by the cache-key normaliser. -/
def pyReplaceSpace (s : String) : String :=
  String.mk (s.data.map (fun c => if c = ' ' then '_' else c))

/-- The fixed supported language set
(`LanguageCode.SUPPORTED_LANGUAGES`, `src/domain/web_enhancement/value_objects/language_code.py`). -/
def SUPPORTED_LANGUAGES : List String :=
  ["ko", "zh-CN", "zh-TW", "en", "ja", "fr", "ru", "it", "vi", "ar", "es"]

/-- Embedding of `LanguageCode.is_valid` (membership in the supported set). -/
def LanguageCode.is_valid (code : String) : Bool :=
  SUPPORTED_LANGUAGES.contains code

/-- Python truthiness test `not s or not s.strip()` used on required string
fields: true exactly when the string is empty or whitespace-only. -/
def blank (s : String) : Prop := s = "" ∨ pyStrip s = ""

instance (s : String) : Decidable (blank s) := by
  unfold blank; infer_instance

/-- The `TermInfo` value object
(`src/domain/web_enhancement/value_objects/term_info.py`). -/
structure TermInfo where
  term : String
  type : String
  primary_domain : String
  context : String := ""
  tags : List String := []
deriving DecidableEq, Repr

/-- Embedding of `TermInfo.create`: factory validating and normalising the raw fields.
Checks, in source order: `term`, `type`, `primary_domain` non-blank, then
the normalised (trimmed, lower-cased) domain at most 100 characters.  Note
the source puts no length bound on `term` itself. -/
def TermInfo.create (term type primary_domain : String) (context : String := "")
    (tags : List String := []) : Except String TermInfo :=
  if blank term then .error "empty term"
  else if blank type then .error "empty term type"
  else if blank primary_domain then .error "empty primary domain"
  else
    let normalized_domain := pyLower (pyStrip primary_domain)
    if normalized_domain.length > 100 then .error "domain too long"
    else .ok { term := pyStrip term
             , type := pyLower (pyStrip type)
             , primary_domain := normalized_domain
             , context := if context = "" then "" else pyStrip context
             , tags := tags }

/-- Keys of an insertion-ordered dict. -/
def dictKeys (m : List (String × String)) : List String := m.map Prod.fst

/-- CPython dict assignment `m[k] = v`: overwrite in place if the key
exists, otherwise append at the end. -/
def dictInsert (m : List (String × String)) (k v : String) : List (String × String) :=
  if (dictKeys m).contains k then
    m.map (fun p => if p.1 = k then (k, v) else p)
  else m ++ [(k, v)]

/-- The `EnhancedTerm` entity
(`src/domain/web_enhancement/entities/enhanced_term.py`). -/
structure EnhancedTerm where
  original_term : String
  term_type : String
  primary_domain : String
  context : String
  tags : List String := []
  translations : List (String × String) := []
  web_sources : List String := []
  source : String := "unknown"
  confidence_score : ℚ := 0
  search_timestamp : Option Nat := none
deriving DecidableEq, Repr

/-- The LLM sources accepted by `EnhancedTerm.create`. -/
def VALID_SOURCES : List String := ["gpt4o_web", "gemini_web", "unknown"]

/-- Embedding of `EnhancedTerm.create`: factory with validation, in source order:
required fields non-blank, confidence in [0,1], source in the valid set,
and (when a translations dict is given) every key in the supported
language set.  `now` stands for `datetime.utcnow()` used when no
timestamp is supplied. -/
def EnhancedTerm.create (original_term term_type primary_domain context : String)
    (tags : List String) (translations : List (String × String))
    (web_sources : List String) (source : String) (confidence_score : ℚ)
    (search_timestamp : Option Nat) (now : Nat) : Except String EnhancedTerm :=
  if blank original_term then .error "empty original term"
  else if blank term_type then .error "empty term type"
  else if blank primary_domain then .error "empty primary domain"
  else if ¬(0 ≤ confidence_score ∧ confidence_score ≤ 1) then
    .error "confidence out of range"
  else if ¬ source ∈ VALID_SOURCES then .error "invalid source"
  else if translations ≠ [] ∧ (dictKeys translations).any (fun k => ! SUPPORTED_LANGUAGES.contains k) then
    .error "invalid language code"
  else .ok { original_term := pyStrip original_term
           , term_type := pyStrip term_type
           , primary_domain := pyStrip primary_domain
           , context := context
           , tags := tags
           , translations := translations
           , web_sources := web_sources
           , source := source
           , confidence_score := confidence_score
           , search_timestamp := some (search_timestamp.getD now) }

/-- Embedding of `EnhancedTerm.add_translation`: validates the language code and the
translation text, then performs the dict assignment with the stripped
text.  The Python method mutates in place and returns `Success(None)`;
the embedding returns the updated entity. -/
def EnhancedTerm.add_translation (t : EnhancedTerm) (language_code translation : String) :
    Except String EnhancedTerm :=
  if ¬ SUPPORTED_LANGUAGES.contains language_code then .error "invalid language code"
  else if blank translation then .error "empty translation"
  else .ok { t with translations := dictInsert t.translations language_code (pyStrip translation) }

/-- Embedding of `EnhancedTerm.add_web_source`: rejects blank URLs; appends
`url.strip()` when the raw `url` is not already a member of
`web_sources` (the membership test uses the unstripped value). -/
def EnhancedTerm.add_web_source (t : EnhancedTerm) (url : String) :
    Except String EnhancedTerm :=
  if blank url then .error "empty url"
  else if t.web_sources.contains url then .ok t
  else .ok { t with web_sources := t.web_sources ++ [pyStrip url] }

/-- Embedding of `EnhancedTerm.has_translation`: key membership in the translations dict. -/
def EnhancedTerm.has_translation (t : EnhancedTerm) (language_code : String) : Bool :=
  (dictKeys t.translations).contains language_code

/-- The dictionary shape produced by `EnhancedTerm.to_dict` and consumed
by `EnhancedTerm.from_dict` and the cache-read path.  The two derived
output-only entries of `to_dict` (`completion_rate`, `is_complete`) are
ignored by every reader and omitted here. -/
structure TermData where
  original_term : String
  term_type : String
  primary_domain : String
  context : String
  tags : List String := []
  translations : List (String × String) := []
  web_sources : List String := []
  source : String := "unknown"
  confidence_score : ℚ := 0
  search_timestamp : Option Nat := none
deriving DecidableEq, Repr

/-- Embedding of `EnhancedTerm.from_dict`: field-by-field reconstruction with *no*
validation (the isoformat timestamp parse is modelled as the identity on
the `Option Nat` instant). -/
def EnhancedTerm.from_dict (data : TermData) : EnhancedTerm :=
  { original_term := data.original_term
  , term_type := data.term_type
  , primary_domain := data.primary_domain
  , context := data.context
  , tags := data.tags
  , translations := data.translations
  , web_sources := data.web_sources
  , source := data.source
  , confidence_score := data.confidence_score
  , search_timestamp := data.search_timestamp }

/-- Embedding of `EnhancedTerm.to_dict`. -/
def EnhancedTerm.to_dict (t : EnhancedTerm) : TermData :=
  { original_term := t.original_term
  , term_type := t.term_type
  , primary_domain := t.primary_domain
  , context := t.context
  , tags := t.tags
  , translations := t.translations
  , web_sources := t.web_sources
  , source := t.source
  , confidence_score := t.confidence_score
  , search_timestamp := t.search_timestamp }

/-! ## Result validator
(`WebEnhancementService._validate_results`; `AsyncWebEnhancementService`
has the identical body.) -/

/-- Structured form of the validator's failure message: the Python code
interpolates exactly this data into a Korean error string. -/
inductive ValidationError where
  | emptyResults : ValidationError
  | missingTranslations (term : String) (langs : List String) : ValidationError
  | lowConfidence (term : String) (score : ℚ) : ValidationError
  | noWebSources (term : String) : ValidationError
deriving DecidableEq, Repr

/-- The 0.5 confidence threshold of `_validate_results`. -/
def CONFIDENCE_THRESHOLD : ℚ := mkRat 1 2

/-- The per-term loop of `_validate_results`: for each term in order,
first the missing-translation check, then the confidence check, then the
web-source check, failing fast on the first violation. -/
def validate_results_loop (target_languages : List String) :
    List EnhancedTerm → Except ValidationError Unit
  | [] => .ok ()
  | t :: rest =>
    let missing_languages := target_languages.filter (fun lang => ! t.has_translation lang)
    if missing_languages ≠ [] then
      .error (.missingTranslations t.original_term missing_languages)
    else if t.confidence_score < CONFIDENCE_THRESHOLD then
      .error (.lowConfidence t.original_term t.confidence_score)
    else if t.web_sources = [] then
      .error (.noWebSources t.original_term)
    else validate_results_loop target_languages rest

/-- Embedding of `_validate_results`: empty result list is a failure, otherwise the
per-term loop. -/
def validate_results (enhanced_terms : List EnhancedTerm)
    (target_languages : List String) : Except ValidationError Unit :=
  if enhanced_terms = [] then .error .emptyResults
  else validate_results_loop target_languages enhanced_terms

/-! ## Fallback orchestrator
(`WebEnhancementService.enhance_terms` / `_try_fallback`;
`AsyncWebEnhancementService` has the same acceptance logic, differing
only in awaiting, the optional-fallback guard message and the default
delay.)  Each adapter is invoked at most once per orchestration call, so
an adapter is modelled by the `Result` its single invocation returns;
`none` models a disabled/absent optional adapter.  The delay
(`time.sleep`) has no effect on values and is omitted. -/

/-- Outcome of one adapter invocation (`WebEnhancementPort.enhance_terms`). -/
abbrev AdapterResult := Except String (List EnhancedTerm)

/-- Rendering of a validation error used when recording fallback reasons. -/
def ValidationError.message : ValidationError → String
  | .emptyResults => "no enhanced terms"
  | .missingTranslations term langs =>
      "missing translations for " ++ term ++ ": " ++ String.intercalate ", " langs
  | .lowConfidence term _ => "low confidence for " ++ term
  | .noWebSources term => "no web sources for " ++ term

/-- The Fallback 2 / Fallback 3 stage of `_try_fallback`: a configured
plain-translation adapter's success is accepted directly, with no
validation; otherwise the aggregated error concatenates every attempted
tier's reason in attempt order. -/
def try_plain_fallbacks (errors2 : List String)
    (simpleRes finalRes : Option AdapterResult) :
    Except String (List EnhancedTerm × Nat) :=
  match simpleRes with
  | some (.ok ts) => .ok (ts, 3)
  | _ =>
    let errors3 := errors2 ++
      (match simpleRes with | some (.error e) => ["Fallback 2: " ++ e] | _ => [])
    match finalRes with
    | some (.ok ts) => .ok (ts, 4)
    | _ =>
      let errors4 := errors3 ++
        (match finalRes with | some (.error e) => ["Fallback 3: " ++ e] | _ => [])
      .error ("All fallbacks failed. " ++ String.intercalate " | " errors4)

/-- Embedding of `_try_fallback`: Fallback 1 (web search) accepted only after the full
validator passes; then the plain-translation stage.  The returned `Nat`
is the accepted tier (2, 3 or 4). -/
def try_fallback (target_languages : List String) (primary_error : String)
    (fallbackRes : AdapterResult) (simpleRes finalRes : Option AdapterResult) :
    Except String (List EnhancedTerm × Nat) :=
  let errors : List String := ["Primary: " ++ primary_error]
  match fallbackRes with
  | .ok ts =>
    match validate_results ts target_languages with
    | .ok _ => .ok (ts, 2)
    | .error e =>
      try_plain_fallbacks (errors ++ ["Fallback 1 validation failed: " ++ e.message])
        simpleRes finalRes
  | .error e =>
    try_plain_fallbacks (errors ++ ["Fallback 1: " ++ e]) simpleRes finalRes

/-- The default target-language list used by `enhance_terms` when the
caller passes `None` (all 11 supported codes). -/
def DEFAULT_TARGET_LANGUAGES : List String := SUPPORTED_LANGUAGES

/-- The language list the orchestration actually uses. -/
def resolved_languages (target_languages : Option (List String)) : List String :=
  target_languages.getD DEFAULT_TARGET_LANGUAGES

/-- Embedding of `enhance_terms` with the accepted tier made explicit: tier 1 is the
primary adapter (accepted only after full validation), the rest is
`try_fallback`.  Input checks in source order: non-empty term list, then
every explicit target language supported. -/
def enhance_terms_tiered (term_infos : List TermInfo)
    (target_languages : Option (List String))
    (primaryRes fallbackRes : AdapterResult)
    (simpleRes finalRes : Option AdapterResult) :
    Except String (List EnhancedTerm × Nat) :=
  if term_infos = [] then .error "no terms"
  else if ¬ (resolved_languages target_languages).all (fun l => LanguageCode.is_valid l) then
    .error "invalid language code"
  else
    match primaryRes with
    | .ok ts =>
      match validate_results ts (resolved_languages target_languages) with
      | .ok _ => .ok (ts, 1)
      | .error e =>
        try_fallback (resolved_languages target_languages)
          ("validation failed: " ++ e.message) fallbackRes simpleRes finalRes
    | .error e =>
      try_fallback (resolved_languages target_languages)
        ("adapter failed: " ++ e) fallbackRes simpleRes finalRes

/-- Embedding of `WebEnhancementService.enhance_terms` as the source exposes it: the
accepted term list without the tier index. -/
def enhance_terms (term_infos : List TermInfo)
    (target_languages : Option (List String))
    (primaryRes fallbackRes : AdapterResult)
    (simpleRes finalRes : Option AdapterResult) :
    Except String (List EnhancedTerm) :=
  (enhance_terms_tiered term_infos target_languages primaryRes fallbackRes simpleRes finalRes).map
    Prod.fst

/-! ## Batch splitter
(`BatchEnhancementService._create_batches` / `calculate_batch_count`). -/

/-- Embedding of `_create_batches`: `for i in range(0, len(terms), batch_size):
batches.append(terms[i:i+batch_size])`.  A zero batch size raises
`ValueError` in Python (`range` step 0); the claims only involve
`batch_size ≥ 1`, and the model returns `[]` for 0. -/
def create_batches {α : Type} : List α → Nat → List (List α)
  | _, 0 => []
  | [], _ + 1 => []
  | x :: xs, b + 1 =>
    (x :: xs).take (b + 1) :: create_batches ((x :: xs).drop (b + 1)) (b + 1)
termination_by l _ => l.length
decreasing_by
  simp only [List.length_drop, List.length_cons]
  omega

/-- Embedding of `calculate_batch_count`: `math.ceil(total_terms / batch_size)`, the
ceiling of the true quotient (exact for the integer sizes involved). -/
def calculate_batch_count (total_terms batch_size : Nat) : Nat :=
  (total_terms + batch_size - 1) / batch_size

/-! ## Cache layer
(`CachedEnhancementService` and `AsyncCachedEnhancementService`). -/

/-- Lexicographic code-point comparison on character lists (Python string
ordering). -/
def lexLe : List Char → List Char → Bool
  | [], _ => true
  | _ :: _, [] => false
  | x :: xs, y :: ys =>
    if x.val < y.val then true
    else if y.val < x.val then false
    else lexLe xs ys

/-- Insertion step of `sortStrings`. -/
def insertSorted (s : String) : List String → List String
  | [] => [s]
  | t :: rest => if lexLe s.data t.data then s :: t :: rest else t :: insertSorted s rest

/-- Python `sorted` on a list of strings. -/
def sortStrings (l : List String) : List String := l.foldr insertSorted []

/-- Embedding of `CachedEnhancementService._generate_cache_key`:
`web_enhancement:{normalized term}:{language hash}` with the term
trimmed, lower-cased and spaces replaced by underscores (the async
variant omits the underscore replacement; the difference is immaterial
to every claim, which never mixes the two key spaces). -/
def generate_cache_key (term : String) (target_languages : List String) : String :=
  "web_enhancement:" ++ pyReplaceSpace (pyLower (pyStrip term)) ++ ":" ++
    String.intercalate "," (sortStrings target_languages)

/-- The Redis store: key, stored serialised entry, absolute expiry
instant (`setex` stores for `ttl` seconds; redis removes the key once the
expiry instant is reached). -/
abbrev CacheStore := List (String × TermData × Nat)

/-- Redis `setex`: overwrite any previous entry under the key. -/
def store_set (s : CacheStore) (key : String) (value : TermData) (expiry : Nat) : CacheStore :=
  (key, value, expiry) :: s.filter (fun e => e.1 ≠ key)

/-- Redis `get` ignoring expiry (the instant check lives in the caller
model `get_from_cache`). -/
def store_find (s : CacheStore) (key : String) : Option (TermData × Nat) :=
  (s.find? (fun e => e.1 = key)).map (fun e => e.2)

/-- Embedding of `CachedEnhancementService._get_from_cache`: key lookup, TTL-expiry
behaviour of redis, then reconstruction through `EnhancedTerm.create`
passing every stored field except `search_timestamp`. -/
def get_from_cache (store : CacheStore) (term_info : TermInfo)
    (target_languages : List String) (now : Nat) : Except String EnhancedTerm :=
  match store_find store (generate_cache_key term_info.term target_languages) with
  | none => .error "cache miss"
  | some (data, expiry) =>
    if expiry ≤ now then .error "cache miss"
    else
      match EnhancedTerm.create data.original_term data.term_type data.primary_domain
          data.context data.tags data.translations data.web_sources data.source
          data.confidence_score none now with
      | .ok t => .ok t
      | .error e => .error ("cache restore failed: " ++ e)

/-- Embedding of `CachedEnhancementService._save_to_cache`: serialise `to_dict` and
`setex` under the term's key with the configured TTL. -/
def save_to_cache (store : CacheStore) (term : EnhancedTerm)
    (target_languages : List String) (now ttl : Nat) : CacheStore :=
  store_set store (generate_cache_key term.original_term target_languages)
    term.to_dict (now + ttl)

/-- The two plain-translation source identifiers excluded from the sync
write-back (`term.source not in ["gemini_simple", "gpt4o_mini"]`). -/
def PLAIN_TRANSLATION_SOURCES : List String := ["gemini_simple", "gpt4o_mini"]

/-- The sync write-back loop of `enhance_terms_with_cache` (step 3):
save every newly produced term whose source is not a plain-translation
source. -/
def save_batch_filtered (store : CacheStore) (terms : List EnhancedTerm)
    (target_languages : List String) (now ttl : Nat) : CacheStore :=
  terms.foldl
    (fun s t =>
      if PLAIN_TRANSLATION_SOURCES.contains t.source then s
      else save_to_cache s t target_languages now ttl)
    store

/-- Embedding of `AsyncCachedEnhancementService._save_to_cache_batch`: saves every
produced term, with no source filter. -/
def async_save_to_cache_batch (store : CacheStore) (terms : List EnhancedTerm)
    (target_languages : List String) (now ttl : Nat) : CacheStore :=
  terms.foldl (fun s t => save_to_cache s t target_languages now ttl) store

/-- The cache-lookup loop of `enhance_terms_with_cache` (step 1): hits in
input order, hit count, misses in input order. -/
def cache_scan (store : CacheStore) (term_infos : List TermInfo)
    (target_languages : List String) (now : Nat) :
    List EnhancedTerm × Nat × List TermInfo :=
  match term_infos with
  | [] => ([], 0, [])
  | ti :: rest =>
    let r := cache_scan store rest target_languages now
    match get_from_cache store ti target_languages now with
    | .ok t => (t :: r.1, r.2.1 + 1, r.2.2)
    | .error _ => (r.1, r.2.1, ti :: r.2.2)

/-- Embedding of `CachedEnhancementService.enhance_terms_with_cache`: cache scan,
batch processing of the misses, filtered write-back, and the final merge
`all_terms = cached_terms + enhanced_terms`.  `batch` models
`BatchEnhancementService.enhance_terms_batch` applied at the fixed
language list and batch parameters, returning the produced terms and the
fallback count; the float processing time is dropped.  Returns (terms,
cache hits, fallback count, resulting store). -/
def enhance_terms_with_cache (batch : List TermInfo → List EnhancedTerm × Nat)
    (store : CacheStore) (term_infos : List TermInfo)
    (target_languages : List String) (use_cache : Bool) (now ttl : Nat) :
    List EnhancedTerm × Nat × Nat × CacheStore :=
  let scan := if use_cache then cache_scan store term_infos target_languages now
              else ([], 0, term_infos)
  let cached_terms := scan.1
  let cache_hits := scan.2.1
  let terms_to_process := scan.2.2
  if terms_to_process = [] then (cached_terms, cache_hits, 0, store)
  else
    let br := batch terms_to_process
    let store2 := if use_cache then save_batch_filtered store br.1 target_languages now ttl
                  else store
    (cached_terms ++ br.1, cache_hits, br.2, store2)

/-! ## Service boundary
(`EnhanceRequest` pydantic model in
`src/presentation/api/routes/web_enhancement.py` and
`EnhancementRequestDTO.create`). -/

/-- The raw term dictionaries carried by the request. -/
structure TermInput where
  term : String
  type : String
  primary_domain : String
  context : String := ""
  tags : List String := []
deriving DecidableEq, Repr

/-- The `EnhancementRequestDTO` dataclass (field defaults as in the dataclass). -/
structure EnhancementRequestDTO where
  terms : List TermInput
  target_languages : Option (List String) := none
  use_cache : Bool := true
  batch_size : Int := 5
  concurrent_batches : Int := 3
deriving DecidableEq, Repr

/-- Embedding of `EnhancementRequestDTO.create`: non-empty term list, `batch_size`
in [1, 10], `concurrent_batches` in [1, 15], every explicit language
supported. -/
def EnhancementRequestDTO.create (terms : List TermInput)
    (target_languages : Option (List String) := none) (use_cache : Bool := true)
    (batch_size : Int := 5) (concurrent_batches : Int := 3) :
    Except String EnhancementRequestDTO :=
  if terms = [] then .error "empty terms"
  else if batch_size < 1 then .error "batch size below 1"
  else if batch_size > 10 then .error "batch size above 10"
  else if concurrent_batches < 1 then .error "concurrent batches below 1"
  else if concurrent_batches > 15 then .error "concurrent batches above 15"
  else
    match target_languages with
    | some langs =>
      if langs.all (fun l => LanguageCode.is_valid l) then
        .ok { terms := terms, target_languages := target_languages, use_cache := use_cache
            , batch_size := batch_size, concurrent_batches := concurrent_batches }
      else .error "invalid language code"
    | none =>
      .ok { terms := terms, target_languages := none, use_cache := use_cache
          , batch_size := batch_size, concurrent_batches := concurrent_batches }

/-- The pydantic field constraints of `EnhanceRequest`:
`batch_size: Field(default=5, ge=1, le=10)` and
`concurrent_batches: Field(default=3, ge=1, le=5)`; a request violating
them is rejected by FastAPI before the handler runs. -/
def enhance_request_bounds_ok (batch_size concurrent_batches : Int) : Bool :=
  1 ≤ batch_size && batch_size ≤ 10 && 1 ≤ concurrent_batches && concurrent_batches ≤ 5

/-! ## Concrete sample data used by counterexamples and witnesses -/

/-- A well-formed web-search result for the term "Alpha" (shape produced
by the gpt4o web adapter). -/
def alphaTerm : EnhancedTerm :=
  { original_term := "Alpha", term_type := "company", primary_domain := "tech"
  , context := "", tags := [], translations := [("ko", "alfa")]
  , web_sources := ["http://a"], source := "gpt4o_web"
  , confidence_score := 1, search_timestamp := some 7 }

/-- A well-formed web-search result for the term "Beta". -/
def betaTerm : EnhancedTerm :=
  { original_term := "Beta", term_type := "company", primary_domain := "tech"
  , context := "", tags := [], translations := [("ko", "beta")]
  , web_sources := ["http://b"], source := "gpt4o_web"
  , confidence_score := 1, search_timestamp := some 10 }

/-- A degenerate adapter output: no translations, no sources, confidence 0. -/
def emptyResultTerm : EnhancedTerm :=
  { original_term := "Alpha", term_type := "company", primary_domain := "tech"
  , context := "", tags := [], translations := [], web_sources := []
  , source := "unknown", confidence_score := 0, search_timestamp := none }

/-- A plain-translation result, as produced by the Gemini Flash adapter
(`source = "gemini_simple"`). -/
def plainTerm : EnhancedTerm :=
  { original_term := "Alpha", term_type := "company", primary_domain := "tech"
  , context := "", tags := [], translations := [("ko", "alfa")]
  , web_sources := [], source := "gemini_simple"
  , confidence_score := mkRat 3 10, search_timestamp := none }

/-- A term translated into ko and en but missing fr
(spec scenario: "a term missing language fr from a 3-language request"). -/
def missingFrTerm : EnhancedTerm :=
  { original_term := "Alpha", term_type := "company", primary_domain := "tech"
  , context := "", tags := [], translations := [("ko", "alfa"), ("en", "alpha")]
  , web_sources := ["http://a"], source := "gpt4o_web"
  , confidence_score := 1, search_timestamp := none }

/-- A complete term with confidence 0.4 (spec scenario: "confidence 0.4
is a failure"). -/
def lowConfTerm : EnhancedTerm :=
  { original_term := "Alpha", term_type := "company", primary_domain := "tech"
  , context := "", tags := []
  , translations := [("ko", "alfa"), ("en", "alpha"), ("fr", "alphe")]
  , web_sources := ["http://a"], source := "gpt4o_web"
  , confidence_score := mkRat 2 5, search_timestamp := none }

/-- A complete term with confidence 0.6 and one web source (spec
scenario: success). -/
def goodTerm : EnhancedTerm :=
  { original_term := "Alpha", term_type := "company", primary_domain := "tech"
  , context := "", tags := []
  , translations := [("ko", "alfa"), ("en", "alpha"), ("fr", "alphe")]
  , web_sources := ["http://a"], source := "gpt4o_web"
  , confidence_score := mkRat 3 5, search_timestamp := none }

/-- The `TermInfo` for the term "Alpha". -/
def alphaInfo : TermInfo := { term := "Alpha", type := "company", primary_domain := "tech" }

/-- The `TermInfo` for the term "Beta". -/
def betaInfo : TermInfo := { term := "Beta", type := "company", primary_domain := "tech" }

/-- A 101-character term name. -/
def longTermName : String := String.mk (List.replicate 101 'a')

/-- A dictionary carrying a translation key outside the supported set. -/
def invalidKeyData : TermData :=
  { original_term := "Alpha", term_type := "company", primary_domain := "tech"
  , context := "", translations := [("xx", "q")] }

/-- A cache store holding only the serialised `betaTerm`, written at
instant 0 with the default 24h TTL. -/
def betaStore : CacheStore := save_to_cache [] betaTerm ["ko"] 0 86400

/-- A batch-service outcome producing `alphaTerm` (the result for
`alphaInfo`, the only miss in the C2 scenario) with no fallback. -/
def alphaBatch : List TermInfo → List EnhancedTerm × Nat := fun _ => ([alphaTerm], 0)

/-- A request term dictionary. -/
def sampleInput : TermInput := { term := "Alpha", type := "company", primary_domain := "tech" }

/-! ## Theorems -/

/-- Keys after a dict assignment: an existing key or the inserted one. -/
lemma mem_dictKeys_dictInsert {m : List (String × String)} {k v x : String}
    (hx : x ∈ dictKeys (dictInsert m k v)) : x ∈ dictKeys m ∨ x = k := by
  unfold dictInsert at hx
  split at hx
  · unfold dictKeys at hx ⊢
    rw [List.map_map, List.mem_map] at hx
    obtain ⟨a, ha, hax⟩ := hx
    by_cases h : a.1 = k
    · right
      simp only [Function.comp, if_pos h] at hax
      exact hax.symm
    · left
      rw [List.mem_map]
      exact ⟨a, ha, by simpa [Function.comp, if_neg h] using hax⟩
  · simp only [dictKeys, List.map_append, List.mem_append, List.map_cons,
      List.map_nil, List.mem_singleton] at hx
    exact hx

/-- Inversion of a successful `EnhancedTerm.create`: the produced entity
and the facts established by the validation chain. -/
lemma create_ok_inv {o tt pd cx : String} {tg : List String}
    {tr : List (String × String)} {ws : List String} {src : String} {c : ℚ}
    {ts : Option Nat} {now : Nat} {t : EnhancedTerm}
    (h : EnhancedTerm.create o tt pd cx tg tr ws src c ts now = .ok t) :
    t = { original_term := pyStrip o, term_type := pyStrip tt
        , primary_domain := pyStrip pd, context := cx, tags := tg
        , translations := tr, web_sources := ws, source := src
        , confidence_score := c, search_timestamp := some (ts.getD now) }
    ∧ ¬ blank o ∧ ¬ blank tt ∧ ¬ blank pd
    ∧ (0 ≤ c ∧ c ≤ 1) ∧ src ∈ VALID_SOURCES
    ∧ (∀ k ∈ dictKeys tr, k ∈ SUPPORTED_LANGUAGES) := by
  unfold EnhancedTerm.create at h
  split at h; · exact absurd h (by simp)
  split at h; · exact absurd h (by simp)
  split at h; · exact absurd h (by simp)
  split at h; · exact absurd h (by simp)
  split at h; · exact absurd h (by simp)
  split at h; · exact absurd h (by simp)
  rename_i h1 h2 h3 h4 h5 h6
  refine ⟨(Except.ok.injEq _ _).mp h.symm, h1, h2, h3, not_not.mp h4, not_not.mp h5, ?_⟩
  intro k hk
  by_contra hcon
  rcases List.eq_nil_or_concat tr with htr | _
  · subst htr; simp [dictKeys] at hk
  · apply h6
    refine ⟨by rintro rfl; simp [dictKeys] at hk, ?_⟩
    simp only [List.any_eq_true]
    exact ⟨k, hk, by simpa using hcon⟩

/-- A successful `EnhancedTerm.create` under the validation conditions. -/
lemma create_eq_ok {o tt pd cx : String} {tg : List String}
    {tr : List (String × String)} {ws : List String} {src : String} {c : ℚ}
    (ts : Option Nat) (now : Nat)
    (h1 : ¬ blank o) (h2 : ¬ blank tt) (h3 : ¬ blank pd)
    (h4 : 0 ≤ c ∧ c ≤ 1) (h5 : src ∈ VALID_SOURCES)
    (h6 : ∀ k ∈ dictKeys tr, k ∈ SUPPORTED_LANGUAGES) :
    EnhancedTerm.create o tt pd cx tg tr ws src c ts now =
      .ok { original_term := pyStrip o, term_type := pyStrip tt
          , primary_domain := pyStrip pd, context := cx, tags := tg
          , translations := tr, web_sources := ws, source := src
          , confidence_score := c, search_timestamp := some (ts.getD now) } := by
  unfold EnhancedTerm.create
  rw [if_neg h1, if_neg h2, if_neg h3, if_neg (not_not.mpr h4), if_neg (not_not.mpr h5),
    if_neg ?_]
  rintro ⟨-, hany⟩
  simp only [List.any_eq_true] at hany
  obtain ⟨k, hk, hcon⟩ := hany
  exact absurd (h6 k hk) (by simpa using hcon)

/-- C5 (counterexample): `EnhancedTerm.from_dict` performs no key
validation; a dictionary whose translations carry the unsupported key
"xx" yields an entity whose translation keys leave the supported set. -/
theorem from_dict_invalid_key :
    "xx" ∈ dictKeys (EnhancedTerm.from_dict invalidKeyData).translations
    ∧ "xx" ∉ SUPPORTED_LANGUAGES := by decide

/-- C5 (amended): the translation-key invariant holds for the validated
construction paths — `EnhancedTerm.create` and `add_translation` — but
not for `from_dict`, which copies the dictionary unchecked. -/
theorem translations_keys_supported :
    (∀ (o tt pd cx : String) (tg : List String) (tr : List (String × String))
        (ws : List String) (src : String) (c : ℚ) (ts : Option Nat) (now : Nat)
        (t : EnhancedTerm),
      EnhancedTerm.create o tt pd cx tg tr ws src c ts now = .ok t →
      ∀ k ∈ dictKeys t.translations, k ∈ SUPPORTED_LANGUAGES)
    ∧ (∀ (t : EnhancedTerm) (lc translation : String) (t' : EnhancedTerm),
      (∀ k ∈ dictKeys t.translations, k ∈ SUPPORTED_LANGUAGES) →
      t.add_translation lc translation = .ok t' →
      ∀ k ∈ dictKeys t'.translations, k ∈ SUPPORTED_LANGUAGES) := by
  constructor
  · intro o tt pd cx tg tr ws src c ts now t h k hk
    obtain ⟨ht, -, -, -, -, -, hkeys⟩ := create_ok_inv h
    exact hkeys k (by rw [ht] at hk; exact hk)
  · intro t lc translation t' hkeys h k hk
    unfold EnhancedTerm.add_translation at h
    by_cases hlc : SUPPORTED_LANGUAGES.contains lc = true
    · rw [if_neg (not_not.mpr hlc)] at h
      by_cases hbl : blank translation
      · rw [if_pos hbl] at h; exact absurd h (by simp)
      · rw [if_neg hbl] at h
        injection h with h2
        subst h2
        rcases mem_dictKeys_dictInsert hk with hmem | rfl
        · exact hkeys k hmem
        · simpa using hlc
    · rw [if_pos (by simpa using hlc)] at h
      exact absurd h (by simp)

/-- The per-term validation loop fails when a listed term misses one of
the requested languages. -/
lemma validate_loop_error_of_missing (langs : List String) :
    ∀ (ts : List EnhancedTerm) (t : EnhancedTerm) (lang : String),
      t ∈ ts → lang ∈ langs → t.has_translation lang = false →
      ∃ e, validate_results_loop langs ts = .error e := by
  intro ts
  induction ts with
  | nil => intro t lang ht _ _; exact absurd ht (List.not_mem_nil t)
  | cons t0 rest ih =>
    intro t lang ht hl hhas
    simp only [validate_results_loop]
    by_cases h1 : langs.filter (fun l => ! t0.has_translation l) ≠ []
    · rw [if_pos h1]; exact ⟨_, rfl⟩
    · rw [if_neg h1]
      by_cases h2 : t0.confidence_score < CONFIDENCE_THRESHOLD
      · rw [if_pos h2]; exact ⟨_, rfl⟩
      · rw [if_neg h2]
        by_cases h3 : t0.web_sources = []
        · rw [if_pos h3]; exact ⟨_, rfl⟩
        · rw [if_neg h3]
          rcases List.mem_cons.mp ht with rfl | hrest
          · exfalso
            rw [not_not] at h1
            have h4 := List.filter_eq_nil_iff.mp h1 lang hl
            simp [hhas] at h4
          · exact ih t lang hrest hl hhas

/-- The per-term validation loop fails when a listed term has confidence
below the threshold. -/
lemma validate_loop_error_of_low_conf (langs : List String) :
    ∀ (ts : List EnhancedTerm) (t : EnhancedTerm),
      t ∈ ts → t.confidence_score < CONFIDENCE_THRESHOLD →
      ∃ e, validate_results_loop langs ts = .error e := by
  intro ts
  induction ts with
  | nil => intro t ht _; exact absurd ht (List.not_mem_nil t)
  | cons t0 rest ih =>
    intro t ht hconf
    simp only [validate_results_loop]
    by_cases h1 : langs.filter (fun l => ! t0.has_translation l) ≠ []
    · rw [if_pos h1]; exact ⟨_, rfl⟩
    · rw [if_neg h1]
      by_cases h2 : t0.confidence_score < CONFIDENCE_THRESHOLD
      · rw [if_pos h2]; exact ⟨_, rfl⟩
      · rw [if_neg h2]
        by_cases h3 : t0.web_sources = []
        · rw [if_pos h3]; exact ⟨_, rfl⟩
        · rw [if_neg h3]
          rcases List.mem_cons.mp ht with rfl | hrest
          · exact absurd hconf h2
          · exact ih t hrest hconf

/-- The per-term validation loop succeeds when every listed term has all
requested translations, confidence at least the threshold, and a web
source. -/
lemma validate_loop_ok (langs : List String) :
    ∀ (ts : List EnhancedTerm),
      (∀ t ∈ ts, (∀ lang ∈ langs, t.has_translation lang = true)
        ∧ CONFIDENCE_THRESHOLD ≤ t.confidence_score ∧ t.web_sources ≠ []) →
      validate_results_loop langs ts = .ok () := by
  intro ts
  induction ts with
  | nil => intro _; rfl
  | cons t0 rest ih =>
    intro hall
    obtain ⟨hhas, hconf, hws⟩ := hall t0 (List.mem_cons_self t0 rest)
    simp only [validate_results_loop]
    rw [if_neg (by
      rw [not_not]
      exact List.filter_eq_nil_iff.mpr (fun lang hl => by simp [hhas lang hl]))]
    rw [if_neg (not_lt.mpr hconf), if_neg hws]
    exact ih (fun t ht => hall t (List.mem_cons_of_mem t0 ht))

/-- When the loop reports missing translations, it names a listed term
and exactly that term's missing languages. -/
lemma validate_loop_missing_inv (langs : List String) :
    ∀ (ts : List EnhancedTerm) (name : String) (ms : List String),
      validate_results_loop langs ts = .error (.missingTranslations name ms) →
      ∃ t ∈ ts, t.original_term = name
        ∧ ms = langs.filter (fun lang => ! t.has_translation lang) ∧ ms ≠ [] := by
  intro ts
  induction ts with
  | nil => intro name ms h; exact absurd h (by simp [validate_results_loop])
  | cons t0 rest ih =>
    intro name ms h
    simp only [validate_results_loop] at h
    by_cases h1 : langs.filter (fun l => ! t0.has_translation l) ≠ []
    · rw [if_pos h1] at h
      injection h with h2
      obtain ⟨hname, hms⟩ := (ValidationError.missingTranslations.injEq _ _ _ _).mp h2
      exact ⟨t0, List.mem_cons_self t0 rest, hname, hms.symm, by rw [hms.symm]; exact h1⟩
    · rw [if_neg h1] at h
      by_cases h2 : t0.confidence_score < CONFIDENCE_THRESHOLD
      · rw [if_pos h2] at h; exact absurd h (by simp)
      · rw [if_neg h2] at h
        by_cases h3 : t0.web_sources = []
        · rw [if_pos h3] at h; exact absurd h (by simp)
        · rw [if_neg h3] at h
          obtain ⟨t, ht, rest'⟩ := ih name ms h
          exact ⟨t, List.mem_cons_of_mem t0 ht, rest'⟩

/-- C9: behaviour of `_validate_results`.  (1) a term missing a
requested language forces failure; (2) a term with confidence below 0.5
forces failure; (3) a non-empty list whose terms carry all requested
translations, confidence at least 0.5 and at least one web source
validates successfully; (4) whenever the failure reports missing
translations, it names a term of the list and exactly the requested
languages that term lacks. -/
theorem validate_results_spec :
    (∀ (ts : List EnhancedTerm) (langs : List String) (t : EnhancedTerm) (lang : String),
      t ∈ ts → lang ∈ langs → t.has_translation lang = false →
      ∃ e, validate_results ts langs = .error e)
    ∧ (∀ (ts : List EnhancedTerm) (langs : List String) (t : EnhancedTerm),
      t ∈ ts → t.confidence_score < CONFIDENCE_THRESHOLD →
      ∃ e, validate_results ts langs = .error e)
    ∧ (∀ (ts : List EnhancedTerm) (langs : List String),
      ts ≠ [] →
      (∀ t ∈ ts, (∀ lang ∈ langs, t.has_translation lang = true)
        ∧ CONFIDENCE_THRESHOLD ≤ t.confidence_score ∧ t.web_sources ≠ []) →
      validate_results ts langs = .ok ())
    ∧ (∀ (ts : List EnhancedTerm) (langs : List String) (name : String) (ms : List String),
      validate_results ts langs = .error (.missingTranslations name ms) →
      ∃ t ∈ ts, t.original_term = name
        ∧ ms = langs.filter (fun lang => ! t.has_translation lang) ∧ ms ≠ []) := by
  refine ⟨?_, ?_, ?_, ?_⟩
  · intro ts langs t lang ht hl hhas
    unfold validate_results
    rw [if_neg (by rintro rfl; exact absurd ht (List.not_mem_nil t))]
    exact validate_loop_error_of_missing langs ts t lang ht hl hhas
  · intro ts langs t ht hconf
    unfold validate_results
    rw [if_neg (by rintro rfl; exact absurd ht (List.not_mem_nil t))]
    exact validate_loop_error_of_low_conf langs ts t ht hconf
  · intro ts langs hne hall
    unfold validate_results
    rw [if_neg hne]
    exact validate_loop_ok langs ts hall
  · intro ts langs name ms h
    unfold validate_results at h
    by_cases hne : ts = []
    · rw [if_pos hne] at h; exact absurd h (by simp)
    · rw [if_neg hne] at h
      exact validate_loop_missing_inv langs ts name ms h

/-- C9 witness: the three spec scenarios — a term missing "fr" from a
3-language request fails; confidence 0.4 fails; confidence 0.6 with all
requested languages and one web source succeeds. -/
theorem validate_results_spec_witness :
    (∃ e, validate_results [missingFrTerm] ["ko", "en", "fr"] = .error e)
    ∧ (∃ e, validate_results [lowConfTerm] ["ko", "en", "fr"] = .error e)
    ∧ validate_results [goodTerm] ["ko", "en", "fr"] = .ok () :=
  ⟨validate_results_spec.1 [missingFrTerm] ["ko", "en", "fr"] missingFrTerm "fr"
      (by decide) (by decide) (by decide),
   validate_results_spec.2.1 [lowConfTerm] ["ko", "en", "fr"] lowConfTerm
      (by decide) (by decide),
   validate_results_spec.2.2.1 [goodTerm] ["ko", "en", "fr"] (by decide) (by decide)⟩

/-- Inversion of a successful plain-translation fallback stage. -/
lemma try_plain_fallbacks_ok_inv {errors2 : List String}
    {simpleRes finalRes : Option AdapterResult}
    {ts : List EnhancedTerm} {i : Nat}
    (h : try_plain_fallbacks errors2 simpleRes finalRes = .ok (ts, i)) :
    (i = 3 ∧ simpleRes = some (.ok ts)) ∨ (i = 4 ∧ finalRes = some (.ok ts)) := by
  unfold try_plain_fallbacks at h
  cases simpleRes with
  | some r =>
    cases r with
    | ok ts2 =>
      have h' : (Except.ok (ts2, 3) : Except String (List EnhancedTerm × Nat))
          = .ok (ts, i) := h
      injection h' with h2
      obtain ⟨h3, h4⟩ := Prod.mk.injEq .. |>.mp h2
      exact Or.inl ⟨h4.symm, by rw [h3]⟩
    | error e2 =>
      cases finalRes with
      | some r2 =>
        cases r2 with
        | ok ts3 =>
          have h' : (Except.ok (ts3, 4) : Except String (List EnhancedTerm × Nat))
              = .ok (ts, i) := h
          injection h' with h2
          obtain ⟨h3, h4⟩ := Prod.mk.injEq .. |>.mp h2
          exact Or.inr ⟨h4.symm, by rw [h3]⟩
        | error e3 => exact Except.noConfusion h
      | none => exact Except.noConfusion h
  | none =>
    cases finalRes with
    | some r2 =>
      cases r2 with
      | ok ts3 =>
        have h' : (Except.ok (ts3, 4) : Except String (List EnhancedTerm × Nat))
            = .ok (ts, i) := h
        injection h' with h2
        obtain ⟨h3, h4⟩ := Prod.mk.injEq .. |>.mp h2
        exact Or.inr ⟨h4.symm, by rw [h3]⟩
      | error e3 => exact Except.noConfusion h
    | none => exact Except.noConfusion h

/-- Inversion of a successful `_try_fallback`. -/
lemma try_fallback_ok_inv {target_languages : List String} {primary_error : String}
    {fallbackRes : AdapterResult} {simpleRes finalRes : Option AdapterResult}
    {ts : List EnhancedTerm} {i : Nat}
    (h : try_fallback target_languages primary_error fallbackRes simpleRes finalRes
          = .ok (ts, i)) :
    (i = 2 ∧ fallbackRes = .ok ts ∧ validate_results ts target_languages = .ok ())
    ∨ (i = 3 ∧ simpleRes = some (.ok ts))
    ∨ (i = 4 ∧ finalRes = some (.ok ts)) := by
  unfold try_fallback at h
  split at h
  · rename_i ts1
    split at h
    · rename_i u heq
      cases u
      injection h with h2
      obtain ⟨h3, h4⟩ := Prod.mk.injEq .. |>.mp h2
      subst h3
      exact Or.inl ⟨h4.symm, rfl, heq⟩
    · exact Or.inr (try_plain_fallbacks_ok_inv h)
  · exact Or.inr (try_plain_fallbacks_ok_inv h)

/-- C1 (counterexample): with both web-search tiers down, a
plain-translation tier's success is accepted as the orchestration result
even though the returned term has no translation for the single
requested language "ko" and confidence 0 — no validation at all runs on
plain-translation tiers, not merely a waived web-source check. -/
theorem plain_tier_skips_validation :
    enhance_terms_tiered [alphaInfo] (some ["ko"]) (.error "adapter down")
        (.error "adapter down") (some (.ok [emptyResultTerm])) none
      = .ok ([emptyResultTerm], 3)
    ∧ emptyResultTerm.has_translation "ko" = false
    ∧ emptyResultTerm.confidence_score < CONFIDENCE_THRESHOLD
    ∧ enhance_terms [alphaInfo] (some ["ko"]) (.error "adapter down")
        (.error "adapter down") (some (.ok [emptyResultTerm])) none
      = .ok [emptyResultTerm] := by decide

/-- C1 (amended): a result accepted from tier 1 or tier 2 has passed the
full validator (translation completeness, the 0.5 confidence threshold
and the web-source check) on the requested languages; a result accepted
from tier 3 or tier 4 is exactly the corresponding plain-translation
adapter's successful output, accepted without validation. -/
theorem fallback_tier_validation (term_infos : List TermInfo)
    (target_languages : Option (List String))
    (primaryRes fallbackRes : AdapterResult)
    (simpleRes finalRes : Option AdapterResult)
    (ts : List EnhancedTerm) (i : Nat)
    (h : enhance_terms_tiered term_infos target_languages primaryRes fallbackRes
          simpleRes finalRes = .ok (ts, i)) :
    (i ≤ 2 → validate_results ts (resolved_languages target_languages) = .ok ())
    ∧ (i = 3 → simpleRes = some (.ok ts))
    ∧ (i = 4 → finalRes = some (.ok ts)) := by
  unfold enhance_terms_tiered at h
  by_cases hne : term_infos = []
  · rw [if_pos hne] at h; exact absurd h (by simp)
  rw [if_neg hne] at h
  by_cases hlang : (resolved_languages target_languages).all
      (fun l => LanguageCode.is_valid l) = true
  · rw [if_neg (not_not.mpr hlang)] at h
    split at h
    · rename_i ts1
      split at h
      · rename_i u heq
        cases u
        injection h with h2
        obtain ⟨h3, h4⟩ := Prod.mk.injEq .. |>.mp h2
        subst h3
        refine ⟨fun _ => heq, fun hi => absurd (h4.trans hi) (by decide),
          fun hi => absurd (h4.trans hi) (by decide)⟩
      · rcases try_fallback_ok_inv h with ⟨rfl, -, hval⟩ | ⟨rfl, hs⟩ | ⟨rfl, hfin⟩
        · exact ⟨fun _ => hval, fun hi => absurd hi (by decide),
            fun hi => absurd hi (by decide)⟩
        · exact ⟨fun hi => absurd hi (by decide), fun _ => hs,
            fun hi => absurd hi (by decide)⟩
        · exact ⟨fun hi => absurd hi (by decide), fun hi => absurd hi (by decide),
            fun _ => hfin⟩
    · rcases try_fallback_ok_inv h with ⟨rfl, -, hval⟩ | ⟨rfl, hs⟩ | ⟨rfl, hfin⟩
      · exact ⟨fun _ => hval, fun hi => absurd hi (by decide),
          fun hi => absurd hi (by decide)⟩
      · exact ⟨fun hi => absurd hi (by decide), fun _ => hs,
          fun hi => absurd hi (by decide)⟩
      · exact ⟨fun hi => absurd hi (by decide), fun hi => absurd hi (by decide),
          fun _ => hfin⟩
  · rw [if_pos hlang] at h
    exact absurd h (by simp)

/-- C1 witness: a validated primary success is accepted at tier 1. -/
theorem fallback_tier_validation_witness :
    (enhance_terms_tiered [alphaInfo] (some ["ko"]) (.ok [alphaTerm]) (.error "down")
        none none = .ok ([alphaTerm], 1))
    ∧ ((1 ≤ 2 → validate_results [alphaTerm] (resolved_languages (some ["ko"])) = .ok ())
      ∧ (1 = 3 → (none : Option AdapterResult) = some (.ok [alphaTerm]))
      ∧ (1 = 4 → (none : Option AdapterResult) = some (.ok [alphaTerm]))) :=
  ⟨by decide, fallback_tier_validation [alphaInfo] (some ["ko"]) (.ok [alphaTerm])
    (.error "down") none none [alphaTerm] 1 (by decide)⟩

/-- Evaluation of `_create_batches` on the empty list. -/
lemma create_batches_nil {α : Type} (b : Nat) :
    create_batches ([] : List α) b = [] := by
  cases b <;> simp [create_batches]

/-- Unfolding: `_create_batches` peels one slice off a non-empty list. -/
lemma create_batches_cons {α : Type} (l : List α) (b : Nat)
    (hb : b ≠ 0) (hl : l ≠ []) :
    create_batches l b = l.take b :: create_batches (l.drop b) b := by
  cases b with
  | zero => exact absurd rfl hb
  | succ b =>
    cases l with
    | nil => exact absurd rfl hl
    | cons x xs => rw [create_batches]

/-- Batch count of `_create_batches` equals the ceiling formula of
`calculate_batch_count`. -/
lemma create_batches_length {α : Type} (b : Nat) (hb : 1 ≤ b) :
    ∀ (n : Nat) (l : List α), l.length ≤ n →
      (create_batches l b).length = (l.length + b - 1) / b := by
  intro n
  induction n with
  | zero =>
    intro l hl
    obtain rfl : l = [] := List.eq_nil_of_length_eq_zero (Nat.le_zero.mp hl)
    rw [create_batches_nil]
    simp only [List.length_nil]
    exact (Nat.div_eq_of_lt (by omega : 0 + b - 1 < b)).symm
  | succ n ih =>
    intro l hl
    by_cases hne : l = []
    · subst hne
      rw [create_batches_nil]
      simp only [List.length_nil]
      exact (Nat.div_eq_of_lt (by omega : 0 + b - 1 < b)).symm
    · have hpos : 1 ≤ l.length := List.length_pos.mpr hne
      rw [create_batches_cons l b (by omega) hne, List.length_cons,
        ih (l.drop b) (by simp [List.length_drop]; omega), List.length_drop]
      rcases le_or_lt l.length b with hle | hgt
      · have h1 : l.length - b = 0 := by omega
        have h2 : (l.length + b - 1) / b = 1 := by
          apply Nat.div_eq_of_lt_le (by omega)
          omega
        rw [h1, h2, Nat.div_eq_of_lt (by omega : 0 + b - 1 < b)]
      · have h1 : l.length - b + b - 1 = l.length - 1 := by omega
        have h2 : l.length + b - 1 = (l.length - 1) + b := by omega
        rw [h1, h2, Nat.add_div_right _ (by omega)]

/-- Each batch of `_create_batches` is the corresponding slice. -/
lemma create_batches_get {α : Type} (b : Nat) (hb : 1 ≤ b) :
    ∀ (n : Nat) (l : List α), l.length ≤ n →
      ∀ (k : Nat) (hk : k < (create_batches l b).length),
        (create_batches l b).get ⟨k, hk⟩ = (l.drop (k * b)).take b := by
  intro n
  induction n with
  | zero =>
    intro l hl k hk
    obtain rfl : l = [] := List.eq_nil_of_length_eq_zero (Nat.le_zero.mp hl)
    rw [create_batches_nil] at hk
    exact absurd hk (by simp)
  | succ n ih =>
    intro l hl k hk
    by_cases hne : l = []
    · subst hne
      rw [create_batches_nil] at hk
      exact absurd hk (by simp)
    · have hstep := create_batches_cons l b (by omega) hne
      cases k with
      | zero =>
        rw [List.get_of_eq hstep]
        simp
      | succ k =>
        have hk2 : k < (create_batches (l.drop b) b).length := by
          have := hk
          rw [hstep] at this
          simpa using this
        calc (create_batches l b).get ⟨k + 1, hk⟩
            = (create_batches (l.drop b) b).get ⟨k, hk2⟩ := by
              rw [List.get_of_eq hstep]; rfl
          _ = ((l.drop b).drop (k * b)).take b :=
              ih (l.drop b) (by simp [List.length_drop]; omega) k hk2
          _ = (l.drop ((k + 1) * b)).take b := by
              rw [List.drop_drop, Nat.succ_mul, Nat.add_comm (k * b) b]

/-- Concatenating the batches of `_create_batches` restores the list. -/
lemma create_batches_join {α : Type} (b : Nat) (hb : 1 ≤ b) :
    ∀ (n : Nat) (l : List α), l.length ≤ n →
      (create_batches l b).flatten = l := by
  intro n
  induction n with
  | zero =>
    intro l hl
    obtain rfl : l = [] := List.eq_nil_of_length_eq_zero (Nat.le_zero.mp hl)
    rw [create_batches_nil]; rfl
  | succ n ih =>
    intro l hl
    by_cases hne : l = []
    · subst hne; rw [create_batches_nil]; rfl
    · rw [create_batches_cons l b (by omega) hne, List.flatten_cons,
        ih (l.drop b) (by simp [List.length_drop]; omega)]
      exact List.take_append_drop b l

/-- Every batch of `_create_batches` has size at most the batch size. -/
lemma create_batches_sizes {α : Type} (b : Nat) (hb : 1 ≤ b) :
    ∀ (n : Nat) (l : List α), l.length ≤ n →
      ∀ batch ∈ create_batches l b, batch.length ≤ b := by
  intro n
  induction n with
  | zero =>
    intro l hl batch hbatch
    obtain rfl : l = [] := List.eq_nil_of_length_eq_zero (Nat.le_zero.mp hl)
    rw [create_batches_nil] at hbatch
    exact absurd hbatch (by simp)
  | succ n ih =>
    intro l hl batch hbatch
    by_cases hne : l = []
    · subst hne
      rw [create_batches_nil] at hbatch
      exact absurd hbatch (by simp)
    · rw [create_batches_cons l b (by omega) hne] at hbatch
      rcases List.mem_cons.mp hbatch with rfl | hmem
      · simp
      · exact ih (l.drop b) (by simp [List.length_drop]; omega) batch hmem

/-- C8: for every list and every `batch_size ≥ 1`, `_create_batches`
produces exactly `calculate_batch_count` (= ⌈N/B⌉) batches, batch `k` is
the slice `terms[k*B : (k+1)*B]`, every batch has size at most `B`, and
the concatenation of the batches is the original list. -/
theorem create_batches_spec {α : Type} (l : List α) (b : Nat) (hb : 1 ≤ b) :
    (create_batches l b).length = calculate_batch_count l.length b
    ∧ (∀ (k : Nat) (hk : k < (create_batches l b).length),
        (create_batches l b).get ⟨k, hk⟩ = (l.drop (k * b)).take b)
    ∧ (∀ batch ∈ create_batches l b, batch.length ≤ b)
    ∧ (create_batches l b).flatten = l :=
  ⟨create_batches_length b hb l.length l le_rfl,
   create_batches_get b hb l.length l le_rfl,
   create_batches_sizes b hb l.length l le_rfl,
   create_batches_join b hb l.length l le_rfl⟩

/-- C8 witness: five elements split with batch size 2. -/
theorem create_batches_spec_witness :
    1 ≤ 2
    ∧ ((create_batches [0, 1, 2, 3, 4] 2).length
          = calculate_batch_count (List.length [0, 1, 2, 3, 4]) 2
      ∧ (∀ (k : Nat) (hk : k < (create_batches [0, 1, 2, 3, 4] 2).length),
          (create_batches [0, 1, 2, 3, 4] 2).get ⟨k, hk⟩
            = (([0, 1, 2, 3, 4] : List Nat).drop (k * 2)).take 2)
      ∧ (∀ batch ∈ create_batches [0, 1, 2, 3, 4] 2, batch.length ≤ 2)
      ∧ (create_batches [0, 1, 2, 3, 4] 2).flatten = [0, 1, 2, 3, 4]) :=
  ⟨by decide, create_batches_spec [0, 1, 2, 3, 4] 2 (by decide)⟩

/-- The cache-lookup loop: hits in input order, hit count, misses in
input order. -/
lemma cache_scan_eq (store : CacheStore) (target_languages : List String) (now : Nat) :
    ∀ (tis : List TermInfo),
      cache_scan store tis target_languages now =
        (tis.filterMap (fun ti => (get_from_cache store ti target_languages now).toOption),
         (tis.filterMap (fun ti => (get_from_cache store ti target_languages now).toOption)).length,
         tis.filter (fun ti => (get_from_cache store ti target_languages now).toOption.isNone)) := by
  intro tis
  induction tis with
  | nil => rfl
  | cons ti rest ih =>
    simp only [cache_scan, ih]
    cases hg : get_from_cache store ti target_languages now with
    | ok t =>
      simp [List.filterMap_cons, List.filter_cons, hg, Except.toOption, Option.isNone]
    | error e =>
      simp [List.filterMap_cons, List.filter_cons, hg, Except.toOption, Option.isNone]

/-- C2 (counterexample): with "Alpha" a cache miss and "Beta" a cache
hit, the merged output lists Beta's result before Alpha's, although
Alpha precedes Beta in the input: the merge `cached_terms +
enhanced_terms` does not restore the original input order. -/
theorem cache_merge_not_input_ordered :
    ((enhance_terms_with_cache alphaBatch betaStore [alphaInfo, betaInfo]
        ["ko"] true 5 86400).1.map (fun t => t.original_term)) = ["Beta", "Alpha"]
    ∧ [alphaInfo.term, betaInfo.term] = ["Alpha", "Beta"]
    ∧ (["Beta", "Alpha"] : List String) ≠ ["Alpha", "Beta"] := by decide

/-- C2 (amended): with caching enabled, the merged output is exactly the
cache hits in input order followed by the batch results for the misses
in input order — not a list reordered by original input index. -/
theorem cache_merge_order (batch : List TermInfo → List EnhancedTerm × Nat)
    (store : CacheStore) (term_infos : List TermInfo)
    (target_languages : List String) (now ttl : Nat) :
    (enhance_terms_with_cache batch store term_infos target_languages true now ttl).1 =
      term_infos.filterMap
        (fun ti => (get_from_cache store ti target_languages now).toOption)
      ++ (if term_infos.filter
            (fun ti => (get_from_cache store ti target_languages now).toOption.isNone) = []
          then []
          else (batch (term_infos.filter
            (fun ti => (get_from_cache store ti target_languages now).toOption.isNone))).1) := by
  unfold enhance_terms_with_cache
  rw [if_pos rfl, cache_scan_eq]
  by_cases hm : term_infos.filter
      (fun ti => (get_from_cache store ti target_languages now).toOption.isNone) = []
  · rw [if_pos hm, if_pos hm]
    simp
  · rw [if_neg hm, if_neg hm]

/-- Membership after a `setex` overwrite. -/
lemma mem_store_set {s : CacheStore} {key : String} {value : TermData}
    {expiry : Nat} {e : String × TermData × Nat}
    (h : e ∈ store_set s key value expiry) : e = (key, value, expiry) ∨ e ∈ s := by
  unfold store_set at h
  rcases List.mem_cons.mp h with rfl | hmem
  · exact Or.inl rfl
  · exact Or.inr (List.mem_filter.mp hmem).1

/-- Every entry the sync write-back adds carries a non-plain-translation
source. -/
lemma save_batch_filtered_mem {target_languages : List String} {now ttl : Nat} :
    ∀ (terms : List EnhancedTerm) (store : CacheStore)
      (e : String × TermData × Nat),
      e ∈ save_batch_filtered store terms target_languages now ttl →
      e ∈ store ∨ (e.2.1.source ≠ "gemini_simple" ∧ e.2.1.source ≠ "gpt4o_mini") := by
  intro terms
  induction terms with
  | nil => intro store e h; exact Or.inl h
  | cons t rest ih =>
    intro store e h
    simp only [save_batch_filtered, List.foldl_cons] at h
    by_cases hp : PLAIN_TRANSLATION_SOURCES.contains t.source = true
    · rw [if_pos hp] at h
      exact ih store e h
    · rw [if_neg hp] at h
      rcases ih _ e h with hmem | hok
      · rcases mem_store_set hmem with rfl | hmem2
        · right
          constructor <;>
          · intro hsrc
            apply hp
            simp only [EnhancedTerm.to_dict] at hsrc
            simp [PLAIN_TRANSLATION_SOURCES, hsrc]
        · exact Or.inl hmem2
      · exact Or.inr hok

/-- C3 (counterexample): the async write-back
(`AsyncCachedEnhancementService._save_to_cache_batch`) has no source
filter: a plain-translation result (`source = "gemini_simple"`) is
written to the store. -/
theorem async_cache_write_plain :
    plainTerm.source = "gemini_simple"
    ∧ store_find (async_save_to_cache_batch [] [plainTerm] ["ko"] 0 86400)
        (generate_cache_key plainTerm.original_term ["ko"])
      = some (plainTerm.to_dict, 86400) := by decide

/-- C3 (amended): the sync write-back never adds an entry whose source is
a plain-translation source, and no cache read (which reconstructs
through `EnhancedTerm.create`, whose valid sources exclude the
plain-translation identifiers) ever returns a plain-translation term —
but the async write-back does write plain-translation entries to the
store, as `async_cache_write_plain` shows. -/
theorem cache_write_source_filter :
    (∀ (store : CacheStore) (terms : List EnhancedTerm)
        (target_languages : List String) (now ttl : Nat)
        (e : String × TermData × Nat),
      e ∈ save_batch_filtered store terms target_languages now ttl →
      e ∈ store ∨ (e.2.1.source ≠ "gemini_simple" ∧ e.2.1.source ≠ "gpt4o_mini"))
    ∧ (∀ (store : CacheStore) (ti : TermInfo) (target_languages : List String)
        (now : Nat) (t : EnhancedTerm),
      get_from_cache store ti target_languages now = .ok t →
      t.source ≠ "gemini_simple" ∧ t.source ≠ "gpt4o_mini") := by
  constructor
  · intro store terms langs now ttl e h
    exact save_batch_filtered_mem terms store e h
  · intro store ti langs now t h
    unfold get_from_cache at h
    split at h
    · exact absurd h (by simp)
    · rename_i data expiry
      split at h
      · exact absurd h (by simp)
      · split at h
        · rename_i t0 heq
          injection h with h2
          subst h2
          obtain ⟨ht0, -, -, -, -, hsrc, -⟩ := create_ok_inv heq
          rw [ht0]
          simp only [VALID_SOURCES, List.mem_cons, List.not_mem_nil, or_false] at hsrc
          rcases hsrc with h | h | h <;> rw [h] <;> exact ⟨by simp, by simp⟩
        · exact absurd h (by simp)

/-- C3 witness: a concrete hit read back from the store has a
web-search source. -/
theorem cache_write_source_filter_witness :
    (get_from_cache betaStore betaInfo ["ko"] 5
        = .ok { betaTerm with search_timestamp := some 5 })
    ∧ ({ betaTerm with search_timestamp := some 5 } : EnhancedTerm).source ≠ "gemini_simple"
    ∧ ({ betaTerm with search_timestamp := some 5 } : EnhancedTerm).source ≠ "gpt4o_mini" :=
  ⟨by decide, cache_write_source_filter.2 betaStore betaInfo ["ko"] 5 _ (by decide)⟩

/-- A `setex` write is found under its own key. -/
lemma store_find_set_self (s : CacheStore) (key : String) (value : TermData)
    (expiry : Nat) : store_find (store_set s key value expiry) key = some (value, expiry) := by
  unfold store_find store_set
  rw [List.find?_cons_of_pos _ (by simp)]
  rfl

/-- Unfolding `get_from_cache` once the store lookup is known. -/
lemma get_from_cache_eq_of_find {store : CacheStore} {ti : TermInfo}
    {target_languages : List String} {now : Nat} {data : TermData} {expiry : Nat}
    (hfind : store_find store (generate_cache_key ti.term target_languages)
      = some (data, expiry)) :
    get_from_cache store ti target_languages now =
      if expiry ≤ now then .error "cache miss"
      else
        match EnhancedTerm.create data.original_term data.term_type data.primary_domain
            data.context data.tags data.translations data.web_sources data.source
            data.confidence_score none now with
        | .ok t => .ok t
        | .error e => .error ("cache restore failed: " ++ e) := by
  unfold get_from_cache
  rw [hfind]

/-- C4 (counterexample): a set-then-get round trip before TTL expiry does
not return the value written: the read path reconstructs the entity
through `EnhancedTerm.create` without the stored `search_timestamp`, so
that field is replaced by the read-time clock (here 50 instead of the
written 7). -/
theorem cache_roundtrip_timestamp_lost :
    get_from_cache (save_to_cache [] alphaTerm ["ko"] 0 86400) alphaInfo ["ko"] 50
      = .ok { alphaTerm with search_timestamp := some 50 }
    ∧ ({ alphaTerm with search_timestamp := some 50 } : EnhancedTerm) ≠ alphaTerm := by decide

/-- C4 (amended): for a written term satisfying `EnhancedTerm.create`'s
invariants (stripped non-empty identity fields, confidence in [0,1], a
valid source, supported translation keys — all guaranteed for entities
built via `create`), a get with the same term and language set before
TTL expiry returns the written value with every field intact except
`search_timestamp`, which is replaced by the read-time clock. -/
theorem cache_roundtrip_fields (store : CacheStore) (t : EnhancedTerm)
    (ti : TermInfo) (target_languages : List String) (writeTime ttl now : Nat)
    (hterm : ti.term = t.original_term)
    (ho : pyStrip t.original_term = t.original_term) (ho2 : t.original_term ≠ "")
    (htt : pyStrip t.term_type = t.term_type) (htt2 : t.term_type ≠ "")
    (hpd : pyStrip t.primary_domain = t.primary_domain) (hpd2 : t.primary_domain ≠ "")
    (hc : 0 ≤ t.confidence_score ∧ t.confidence_score ≤ 1)
    (hs : t.source ∈ VALID_SOURCES)
    (hk : ∀ k ∈ dictKeys t.translations, k ∈ SUPPORTED_LANGUAGES)
    (hexp : now < writeTime + ttl) :
    get_from_cache (save_to_cache store t target_languages writeTime ttl)
        ti target_languages now
      = .ok { t with search_timestamp := some now } := by
  have hfind : store_find (save_to_cache store t target_languages writeTime ttl)
      (generate_cache_key ti.term target_languages) = some (t.to_dict, writeTime + ttl) := by
    unfold save_to_cache
    rw [hterm]
    exact store_find_set_self store (generate_cache_key t.original_term target_languages)
      t.to_dict (writeTime + ttl)
  rw [get_from_cache_eq_of_find hfind]
  rw [if_neg (by omega : ¬ (writeTime + ttl ≤ now))]
  simp only [EnhancedTerm.to_dict]
  rw [create_eq_ok none now (by simp [blank, ho, ho2]) (by simp [blank, htt, htt2])
    (by simp [blank, hpd, hpd2]) hc hs hk]
  rw [ho, htt, hpd]
  rfl

/-- C4 witness: a concrete round trip through the amended statement. -/
theorem cache_roundtrip_fields_witness :
    betaInfo.term = betaTerm.original_term
    ∧ (get_from_cache (save_to_cache [] betaTerm ["ko"] 0 86400) betaInfo ["ko"] 5
        = .ok { betaTerm with search_timestamp := some 5 }) :=
  ⟨by decide, cache_roundtrip_fields [] betaTerm betaInfo ["ko"] 0 86400 5
    (by decide) (by decide) (by decide) (by decide) (by decide) (by decide) (by decide)
    (by decide) (by decide) (by decide) (by decide)⟩

/-- C5 witness: a concrete successful `create` whose keys stay inside
the supported set. -/
theorem translations_keys_supported_witness :
    (EnhancedTerm.create "Alpha" "company" "tech" "" [] [("ko", "alfa")]
        ["http://a"] "gpt4o_web" 1 (some 7) 0 = .ok alphaTerm)
    ∧ (∀ k ∈ dictKeys alphaTerm.translations, k ∈ SUPPORTED_LANGUAGES) :=
  ⟨by decide, translations_keys_supported.1 "Alpha" "company" "tech" "" []
    [("ko", "alfa")] ["http://a"] "gpt4o_web" 1 (some 7) 0 alphaTerm (by decide)⟩

/-- C7 (counterexample): `TermInfo.create` accepts a 101-character term:
the claimed "fails for every term longer than 100 characters" is false —
the source checks the 100-character bound on the normalised
`primary_domain`, never on `term`. -/
theorem term_info_create_long_term_ok :
    (TermInfo.create longTermName "company" "tech").isOk = true
    ∧ longTermName.length = 101 := by decide

/-- C7 (amended): `TermInfo.create` succeeds exactly when `term`, `type`
and `primary_domain` are non-blank and the normalised domain is at most
100 characters; the length of `term` itself is not constrained. -/
theorem term_info_create_spec (term type primary_domain context : String)
    (tags : List String) :
    (TermInfo.create term type primary_domain context tags).isOk = true ↔
      (¬ blank term ∧ ¬ blank type ∧ ¬ blank primary_domain ∧
        (pyLower (pyStrip primary_domain)).length ≤ 100) := by
  by_cases h1 : blank term
  · simp [TermInfo.create, h1, Except.isOk, Except.toBool]
  by_cases h2 : blank type
  · simp [TermInfo.create, h1, h2, Except.isOk, Except.toBool]
  by_cases h3 : blank primary_domain
  · simp [TermInfo.create, h1, h2, h3, Except.isOk, Except.toBool]
  by_cases h4 : (pyLower (pyStrip primary_domain)).length > 100
  · simp [TermInfo.create, h1, h2, h3, h4, Except.isOk, Except.toBool]
  · simp [TermInfo.create, h1, h2, h3, h4, Except.isOk, Except.toBool]; omega

/-- C10: `add_web_source` is not idempotent.  At the failing input
`" http://x "` (a URL with surrounding whitespace) the first call
appends the stripped URL, and the second call's membership test compares
the raw URL against the stripped stored one, misses, and appends the
same stripped URL again — contradicting the method's own
duplicate-prevention comment. -/
theorem add_web_source_padded_url_duplicate :
    (emptyResultTerm.add_web_source " http://x ") =
        .ok { emptyResultTerm with web_sources := ["http://x"] }
    ∧ ((emptyResultTerm.add_web_source " http://x ").bind
        (fun t => t.add_web_source " http://x ")) =
        .ok { emptyResultTerm with web_sources := ["http://x", "http://x"] } := by decide

/-- C6 (counterexample): a request with `batch_size = 20` — inside the
claimed accepted range 1–20 — is rejected by the DTO boundary and by the
pydantic field constraints. -/
theorem request_bounds_counterexample :
    EnhancementRequestDTO.create [sampleInput] none true 20 3 = .error "batch size above 10"
    ∧ enhance_request_bounds_ok 20 3 = false := by decide

/-- C6 (amended): with a non-empty term list and no explicit language
list, `EnhancementRequestDTO.create` accepts exactly `batch_size` in
1–10 and `concurrent_batches` in 1–15; the pydantic `EnhanceRequest`
field constraints accept exactly `batch_size` in 1–10 and
`concurrent_batches` in 1–5; the defaults are 5 and 3. -/
theorem request_bounds_spec :
    (∀ (terms : List TermInput) (uc : Bool) (bs cb : Int), terms ≠ [] →
      ((EnhancementRequestDTO.create terms none uc bs cb).isOk = true ↔
        (1 ≤ bs ∧ bs ≤ 10 ∧ 1 ≤ cb ∧ cb ≤ 15)))
    ∧ (∀ bs cb : Int, enhance_request_bounds_ok bs cb = true ↔
        (1 ≤ bs ∧ bs ≤ 10 ∧ 1 ≤ cb ∧ cb ≤ 5))
    ∧ ({ terms := [sampleInput] } : EnhancementRequestDTO).batch_size = 5
    ∧ ({ terms := [sampleInput] } : EnhancementRequestDTO).concurrent_batches = 3 := by
  refine ⟨?_, ?_, rfl, rfl⟩
  · intro terms uc bs cb hne
    by_cases hb1 : bs < 1
    · simp [EnhancementRequestDTO.create, hne, hb1, Except.isOk, Except.toBool]
    by_cases hb2 : bs > 10
    · simp [EnhancementRequestDTO.create, hne, hb1, hb2, Except.isOk, Except.toBool]
    by_cases hc1 : cb < 1
    · simp [EnhancementRequestDTO.create, hne, hb1, hb2, hc1, Except.isOk, Except.toBool]
    by_cases hc2 : cb > 15
    · simp [EnhancementRequestDTO.create, hne, hb1, hb2, hc1, hc2, Except.isOk, Except.toBool]
    · simp [EnhancementRequestDTO.create, hne, hb1, hb2, hc1, hc2, Except.isOk, Except.toBool]; omega
  · intro bs cb
    simp [enhance_request_bounds_ok, Bool.and_eq_true, decide_eq_true_eq, and_assoc]

/-- C6 witness: the default parameters 5 and 3 are accepted. -/
theorem request_bounds_spec_witness :
    ([sampleInput] ≠ ([] : List TermInput))
    ∧ ((EnhancementRequestDTO.create [sampleInput] none true 5 3).isOk = true ↔
        (1 ≤ (5:Int) ∧ (5:Int) ≤ 10 ∧ 1 ≤ (3:Int) ∧ (3:Int) ≤ 15)) :=
  ⟨by decide, request_bounds_spec.1 [sampleInput] true 5 3 (by decide)⟩

end PxPlus
